import Mathlib

/-!
Verification of the 7TV emote-usage tracker core: the per-channel catalog
cache (`EmoteService`), the usage aggregation store (`StatisticsService`),
the whitespace-token match engine, and dirty-flag-gated persistence.

JavaScript `Map` objects are modelled as insertion-ordered association
lists (`mapGet` reads the entry for a key, `mapSet` updates an existing
entry in place or appends a new one, exactly as `Map.get`/`Map.set`
behave). JavaScript `Set` objects of strings are modelled as
insertion-ordered duplicate-free lists. `Date.now()` is passed in as an
explicit `now : Nat` argument; fetch / file-system outcomes are passed in
as explicit oracle values, so every function here is pure and executable.
-/

set_option autoImplicit false

/-- `Map.get k`: value of the first (and, for maps built by `mapSet`, only)
entry with key `k`, or `none` when absent. -/
def mapGet {β : Type} (k : String) : List (String × β) → Option β
  | [] => none
  | (k', v) :: rest => if k' = k then some v else mapGet k rest

/-- `Map.set k v`: replace the value of the existing entry for `k` keeping
its position, or append a fresh entry at the end — JS `Map` insertion
order semantics. -/
def mapSet {β : Type} (k : String) (v : β) : List (String × β) → List (String × β)
  | [] => [(k, v)]
  | (k', v') :: rest => if k' = k then (k, v) :: rest else (k', v') :: mapSet k v rest

/-- The keys of a map, in insertion order. -/
def mapKeys {β : Type} (m : List (String × β)) : List String :=
  m.map Prod.fst

/-- ASCII lower-casing of one character, as `String.prototype.toLowerCase`
acts on the code points that occur in Twitch channel names. -/
def lowerChar (c : Char) : Char :=
  if 65 ≤ c.toNat ∧ c.toNat ≤ 90 then Char.ofNat (c.toNat + 32) else c

/-- `channelName.toLowerCase()`. -/
def lowerStr (s : String) : String :=
  ⟨s.data.map lowerChar⟩

/-! ## EmoteService (src/services/emote-service.ts) -/

/-- Emote metadata for tracking (`EmoteMetadata` in emote-service.ts). -/
structure EmoteMetadata where
  id : String
  name : String
  imageUrl : String
  animated : Bool
deriving DecidableEq

/-- The fields of a 7TV API emote record that `fetchChannelEmotes` reads:
`emote.name`, `emote.data.id`, `emote.data.animated`. -/
structure SevenTVEmote where
  name : String
  dataId : String
  animated : Bool
deriving DecidableEq

/-- The mutable fields of `EmoteService`: `emoteCache` (channel → set of
emote names), `emoteMetadataCache` (channel → name → metadata),
`cacheTimestamps` (channel → `Date.now()` of the caching write). -/
structure EmoteServiceState where
  emoteCache : List (String × List String)
  emoteMetadataCache : List (String × List (String × EmoteMetadata))
  cacheTimestamps : List (String × Nat)
deriving DecidableEq

/-- `CACHE_DURATION = 5 * 60 * 1000` (5 minutes in milliseconds). -/
def CACHE_DURATION : Nat := 5 * 60 * 1000

/-- Outcome of one attempt at the external I/O inside
`fetchChannelEmotes`'s `try` block. -/
inductive FetchOutcome where
  /-- `userService.getUserIdByName` resolved to `null`. -/
  | noChannelId
  /-- The 7TV API answered 404: no catalog for this channel. -/
  | notFound
  /-- A non-ok, non-404 status: `throw` caught by the `catch` block. -/
  | httpError (status : Nat)
  /-- The network request itself threw, landing in the `catch` block. -/
  | networkError
  /-- An ok response; `emoteSet = none` models `emote_set: null`. -/
  | success (emoteSet : Option (List SevenTVEmote))
deriving DecidableEq

/-- `getCachedEmotes`: JS tests `if (cached && timestamp)`, and a `Set`
object is always truthy while a numeric timestamp is truthy iff nonzero;
`Date.now() - timestamp < CACHE_DURATION` is modelled with truncated
subtraction, which agrees with the JS signed comparison (a negative age
also passes the `<` test, and truncation also yields a pass). -/
def getCachedEmotes (s : EmoteServiceState) (channelName : String) (now : Nat) :
    Option (List String) :=
  match mapGet (lowerStr channelName) s.emoteCache,
        mapGet (lowerStr channelName) s.cacheTimestamps with
  | some cached, some timestamp =>
      if timestamp ≠ 0 ∧ now - timestamp < CACHE_DURATION then some cached else none
  | _, _ => none

/-- `Set.add n`: append `n` unless already present — first insertion
fixes the position, duplicates are ignored. -/
def setAdd (acc : List String) (n : String) : List String :=
  if acc.contains n then acc else acc ++ [n]

/-- `Set<string>` built by iterating `add` over a list of names. -/
def setFromList (names : List String) : List String :=
  names.foldl setAdd []

/-- The emote-name set and metadata map built from a successful 7TV
response body (`data.emote_set?.emotes` loop in `fetchChannelEmotes`). -/
def buildEmoteNames (emoteSet : Option (List SevenTVEmote)) : List String :=
  setFromList ((emoteSet.getD []).map SevenTVEmote.name)

/-- The metadata map of a successful response: one `Map.set` per emote
with the CDN image URL derived from `data.id`. -/
def buildEmoteMetadata (emoteSet : Option (List SevenTVEmote)) :
    List (String × EmoteMetadata) :=
  (emoteSet.getD []).foldl
    (fun acc e =>
      mapSet e.name
        { id := e.dataId
          name := e.name
          imageUrl := "https://cdn.7tv.app/emote/" ++ e.dataId ++ "/1x.webp"
          animated := e.animated } acc)
    []

/-- `fetchChannelEmotes channelName`: returns the emote-name set handed to
the caller, the service state afterwards, and whether the external I/O in
the `try` block was performed (`false` exactly on a fresh-cache hit).
Only the `success` outcome writes the three cache maps; 404, a missing
channel id, and the `catch` path all return an empty set leaving the
state untouched. -/
def fetchChannelEmotes (s : EmoteServiceState) (channelName : String) (now : Nat)
    (outcome : FetchOutcome) : List String × EmoteServiceState × Bool :=
  match getCachedEmotes s channelName now with
  | some cached => (cached, s, false)
  | none =>
    match outcome with
    | .noChannelId => ([], s, true)
    | .notFound => ([], s, true)
    | .httpError _ => ([], s, true)
    | .networkError => ([], s, true)
    | .success emoteSet =>
      let emoteNames := buildEmoteNames emoteSet
      let emoteMetadata := buildEmoteMetadata emoteSet
      (emoteNames,
       { emoteCache := mapSet (lowerStr channelName) emoteNames s.emoteCache
         emoteMetadataCache :=
           mapSet (lowerStr channelName) emoteMetadata s.emoteMetadataCache
         cacheTimestamps := mapSet (lowerStr channelName) now s.cacheTimestamps },
       true)

/-- `getEmoteMetadata channelName emoteName`. -/
def getEmoteMetadata (s : EmoteServiceState) (channelName emoteName : String) :
    Option EmoteMetadata :=
  (mapGet (lowerStr channelName) s.emoteMetadataCache).bind (mapGet emoteName)

/-! ## Match engine (`findEmotesInMessage`) -/

/-- Single pass over the characters: `inSep` says whether the previous
character belonged to a whitespace run (so further whitespace is absorbed
into the same separator), `acc` holds the current token reversed. -/
def splitWSAux : List Char → Bool → List Char → List String
  | [], _, acc => [⟨acc.reverse⟩]
  | c :: cs, inSep, acc =>
    if c.isWhitespace then
      if inSep then splitWSAux cs true acc
      else ⟨acc.reverse⟩ :: splitWSAux cs true []
    else splitWSAux cs false (c :: acc)

/-- JS `message.split(/\s+/)` on the character list: maximal whitespace
runs separate tokens, a leading run yields a leading empty token, a
trailing run a trailing empty token, and the empty string yields `[""]`. -/
def splitWS (cs : List Char) : List String :=
  splitWSAux cs false []

/-- `findEmotesInMessage message emotes`: split on whitespace, keep the
tokens that are members of the emote set, first occurrence only, in text
order (`found` is a JS `Set`, so `Array.from(found)` is insertion
order). -/
def findEmotesInMessage (message : String) (emotes : List String) : List String :=
  (splitWS message.data).foldl
    (fun found w => if emotes.contains w then setAdd found w else found)
    []

/-! ## StatisticsService (src/services/statistics-service.ts) -/

/-- `EmoteStats`: one usage counter. The optional fields model the
`emoteId? / imageUrl? / animated?` snapshot metadata. -/
structure EmoteStats where
  emoteName : String
  count : Nat
  lastUsed : Nat
  channel : String
  emoteId : Option String
  imageUrl : Option String
  animated : Option Bool
deriving DecidableEq

/-- `ChannelStats`: per-channel totals plus the per-emote counter map. -/
structure ChannelStats where
  channelName : String
  totalMessages : Nat
  totalEmotesUsed : Nat
  emotes : List (String × EmoteStats)
deriving DecidableEq

/-- The metadata argument of `recordEmoteUsage`:
`{ emoteId, imageUrl, animated }`. -/
structure UsageMeta where
  emoteId : String
  imageUrl : String
  animated : Bool
deriving DecidableEq

/-- The mutable fields of `StatisticsService` that the claims are about:
the `channelStats` map and the `isDirty` flag. -/
structure StatsState where
  channelStats : List (String × ChannelStats)
  isDirty : Bool
deriving DecidableEq

/-- A `StatisticsService` as constructed: empty map, clean. -/
def initStats : StatsState :=
  { channelStats := [], isDirty := false }

/-- The freshly initialized bucket `{ channelName: channel, totalMessages:
0, totalEmotesUsed: 0, emotes: new Map() }`. -/
def newChannelStats (channel : String) : ChannelStats :=
  { channelName := channel, totalMessages := 0, totalEmotesUsed := 0, emotes := [] }

/-- `recordEmoteUsage channelName emoteName metadata` at time `now`
(`Date.now()`): lower-cases the channel, lazily creates the bucket and the
counter (a fresh counter takes its snapshot fields from `metadata`),
increments `count` and `totalEmotesUsed`, stamps `lastUsed`, sets dirty.
An existing counter keeps its stored `emoteId`/`imageUrl`/`animated`. -/
def recordEmoteUsage (s : StatsState) (channelName emoteName : String)
    (metadata : Option UsageMeta) (now : Nat) : StatsState :=
  let channel := lowerStr channelName
  let stats := (mapGet channel s.channelStats).getD (newChannelStats channel)
  let emoteStats :=
    (mapGet emoteName stats.emotes).getD
      { emoteName := emoteName
        count := 0
        lastUsed := now
        channel := channel
        emoteId := metadata.map UsageMeta.emoteId
        imageUrl := metadata.map UsageMeta.imageUrl
        animated := metadata.map UsageMeta.animated }
  let emoteStats' := { emoteStats with count := emoteStats.count + 1, lastUsed := now }
  let stats' :=
    { stats with
        emotes := mapSet emoteName emoteStats' stats.emotes
        totalEmotesUsed := stats.totalEmotesUsed + 1 }
  { channelStats := mapSet channel stats' s.channelStats, isDirty := true }

/-- `recordMessage channelName`: lower-cases the channel, lazily creates
the bucket, increments `totalMessages`, sets dirty. -/
def recordMessage (s : StatsState) (channelName : String) : StatsState :=
  let channel := lowerStr channelName
  let stats := (mapGet channel s.channelStats).getD (newChannelStats channel)
  { channelStats :=
      mapSet channel { stats with totalMessages := stats.totalMessages + 1 } s.channelStats
    isDirty := true }

/-- `getChannelStats channelName` (`?? null` becomes `Option`). -/
def getChannelStats (s : StatsState) (channelName : String) : Option ChannelStats :=
  mapGet (lowerStr channelName) s.channelStats

/-- `clearStats`. -/
def clearStats (_s : StatsState) : StatsState :=
  { channelStats := [], isDirty := true }

/-- `getTopEmotes`'s `allEmotes` accumulator: for each channel in map
order, push that channel's counters in their map order. -/
def allEmotesList (s : StatsState) : List EmoteStats :=
  s.channelStats.foldl (fun acc p => acc ++ p.2.emotes.map Prod.snd) []

/-- One step of a stable descending insertion sort: `x` goes after every
element whose count is `≥ x.count` and before the first strictly smaller
one. -/
def insertByCountDesc (x : EmoteStats) : List EmoteStats → List EmoteStats
  | [] => [x]
  | y :: ys => if y.count < x.count then x :: y :: ys else y :: insertByCountDesc x ys

/-- `allEmotes.sort((a, b) => b.count - a.count)`: JS `Array.prototype.sort`
is stable, and a stable sort under the count-descending comparator has
exactly one possible output, computed here by stable insertion sort. -/
def sortByCountDesc (l : List EmoteStats) : List EmoteStats :=
  l.foldl (fun acc x => insertByCountDesc x acc) []

/-- `getTopEmotes limit`: collect, sort descending by count, `slice(0, limit)`. -/
def getTopEmotes (s : StatsState) (limit : Nat) : List EmoteStats :=
  (sortByCountDesc (allEmotesList s)).take limit

/-! ## Persistence (`saveStats` / `loadStats` / auto-save) -/

/-- `SerializableChannelStats`: the per-channel record shape written to
`stats.json` (counters flattened to an array in map order). -/
structure SerializableChannelStats where
  channelName : String
  totalMessages : Nat
  totalEmotesUsed : Nat
  emotes : List EmoteStats
deriving DecidableEq

/-- The document `saveStats` serializes: each channel of the map, in
order, with `Array.from(channel.emotes.values())`. -/
def serializeStats (s : StatsState) : List SerializableChannelStats :=
  s.channelStats.map fun p =>
    { channelName := p.2.channelName
      totalMessages := p.2.totalMessages
      totalEmotesUsed := p.2.totalEmotesUsed
      emotes := p.2.emotes.map Prod.snd }

/-- `saveStats`, with the file-system outcome as an oracle: on success the
serialized document is written and `isDirty` is cleared; the `catch` path
logs and leaves the state unchanged (dirty stays set). Returns the state
and the document written, if any. -/
def saveStats (s : StatsState) (writeOk : Bool) :
    StatsState × Option (List SerializableChannelStats) :=
  if writeOk then ({ s with isDirty := false }, some (serializeStats s))
  else (s, none)

/-- The successful branch of `loadStats` applied to a parsed document:
clear the map, then for each channel record rebuild its emote map with one
`Map.set` per counter (keyed by `emote.emoteName`) and `Map.set` the
bucket keyed by `channel.channelName`; finally clear `isDirty`. -/
def loadStatsFromData (data : List SerializableChannelStats) : StatsState :=
  { channelStats :=
      data.foldl
        (fun acc ch =>
          mapSet ch.channelName
            { channelName := ch.channelName
              totalMessages := ch.totalMessages
              totalEmotesUsed := ch.totalEmotesUsed
              emotes := ch.emotes.foldl (fun em e => mapSet e.emoteName e em) [] }
            acc)
        []
    isDirty := false }

/-- One tick of the `startAutoSave` interval: if `isDirty`, call
`saveStats` (which performs the underlying write attempt); otherwise do
nothing. Returns the state afterwards and whether a write was performed. -/
def autosaveTick (s : StatsState) (writeOk : Bool) : StatsState × Bool :=
  if s.isDirty then ((saveStats s writeOk).1, true) else (s, false)

/-! ## Reachable store states -/

/-- The public mutations of the usage store, with their `Date.now()`
values made explicit. -/
inductive StatsOp where
  | recordMessage (channelName : String)
  | recordEmoteUsage (channelName emoteName : String) (metadata : Option UsageMeta) (now : Nat)
  | clearStats
deriving DecidableEq

/-- Apply one public mutation. -/
def applyOp (s : StatsState) : StatsOp → StatsState
  | .recordMessage channelName => recordMessage s channelName
  | .recordEmoteUsage channelName emoteName metadata now =>
      recordEmoteUsage s channelName emoteName metadata now
  | .clearStats => clearStats s

/-- The store state after a sequence of public mutations from startup. -/
def runOps (ops : List StatsOp) : StatsState :=
  ops.foldl applyOp initStats

/-! ## Derived definitions used by the theorems -/

/-- The error outcomes of `fetchChannelEmotes` other than the registry's
404 not-found case: a non-ok status, or the request throwing. -/
def FetchOutcome.isTransientError : FetchOutcome → Bool
  | .httpError _ => true
  | .networkError => true
  | _ => false

/-- Count-descending order: every later element counts no more than an
earlier one. -/
def CountSortedDesc (l : List EmoteStats) : Prop :=
  l.Pairwise (fun a b => b.count ≤ a.count)

/-- Well-formed per-emote counter map: duplicate-free keys, and each
counter's `emoteName` equals its key (as `recordEmoteUsage` constructs). -/
def WFEmotesMap (em : List (String × EmoteStats)) : Prop :=
  (mapKeys em).Nodup ∧ ∀ q ∈ em, q.2.emoteName = q.1

/-- Well-formed channel map: duplicate-free keys, each bucket's
`channelName` equals its key, and each bucket's emote map well formed. -/
def WFChannelMap (m : List (String × ChannelStats)) : Prop :=
  (mapKeys m).Nodup ∧ ∀ p ∈ m, p.2.channelName = p.1 ∧ WFEmotesMap p.2.emotes

instance (em : List (String × EmoteStats)) : Decidable (WFEmotesMap em) := by
  unfold WFEmotesMap
  infer_instance

instance (m : List (String × ChannelStats)) : Decidable (WFChannelMap m) := by
  unfold WFChannelMap WFEmotesMap
  infer_instance

/-- Sum of all counter counts of one channel's emote map. -/
def sumCounts (em : List (String × EmoteStats)) : Nat :=
  (em.map fun q => q.2.count).sum

/-- Invariant of every reachable store: well-formed maps, lower-case
channel keys, and each bucket's `totalEmotesUsed` equal to the sum of its
counters. -/
def StoreInv (s : StatsState) : Prop :=
  WFChannelMap s.channelStats ∧
  ∀ p ∈ s.channelStats, lowerStr p.1 = p.1 ∧ p.2.totalEmotesUsed = sumCounts p.2.emotes

/-! ## Map and lower-casing lemmas -/

@[simp] theorem mapGet_nil {β : Type} (k : String) : mapGet (β := β) k [] = none := rfl

theorem mapGet_mapSet_self {β : Type} (k : String) (v : β) (m : List (String × β)) :
    mapGet k (mapSet k v m) = some v := by
  induction m with
  | nil => simp [mapGet, mapSet]
  | cons p rest ih =>
    obtain ⟨k', v'⟩ := p
    by_cases h : k' = k
    · simp [mapGet, mapSet, h]
    · simp [mapGet, mapSet, h, ih]

theorem mapGet_mapSet_ne {β : Type} (k k' : String) (v : β) (m : List (String × β))
    (h : k ≠ k') : mapGet k' (mapSet k v m) = mapGet k' m := by
  induction m with
  | nil => simp [mapGet, mapSet, h]
  | cons p rest ih =>
    obtain ⟨k₀, v₀⟩ := p
    by_cases h₀ : k₀ = k
    · subst h₀
      simp [mapGet, mapSet, h]
    · simp only [mapSet, if_neg h₀]
      by_cases h₁ : k₀ = k'
      · simp [mapGet, h₁]
      · simp [mapGet, h₁, ih]

theorem mapSet_eq_append {β : Type} (k : String) (v : β) (m : List (String × β))
    (h : mapGet k m = none) : mapSet k v m = m ++ [(k, v)] := by
  induction m with
  | nil => simp [mapSet]
  | cons p rest ih =>
    obtain ⟨k', v'⟩ := p
    by_cases hk : k' = k
    · simp [mapGet, hk] at h
    · simp only [mapGet, if_neg hk] at h
      simp [mapSet, hk, ih h]

theorem mapKeys_mapSet_mem {β : Type} (k : String) (v : β) (m : List (String × β))
    (h : mapGet k m ≠ none) : mapKeys (mapSet k v m) = mapKeys m := by
  induction m with
  | nil => simp [mapGet] at h
  | cons p rest ih =>
    obtain ⟨k', v'⟩ := p
    by_cases hk : k' = k
    · simp [mapKeys, mapSet, hk]
    · simp only [mapGet, if_neg hk] at h
      simp [mapKeys, mapSet, hk] at ih ⊢
      exact ih h

theorem mapGet_eq_none_iff {β : Type} (k : String) (m : List (String × β)) :
    mapGet k m = none ↔ k ∉ mapKeys m := by
  induction m with
  | nil => simp [mapGet, mapKeys]
  | cons p rest ih =>
    obtain ⟨k', v'⟩ := p
    by_cases hk : k' = k
    · simp [mapGet, mapKeys, hk]
    · have hk' : ¬k = k' := fun h => hk h.symm
      simp [mapGet, mapKeys, hk, hk', ih]

theorem lowerChar_idem (c : Char) : lowerChar (lowerChar c) = lowerChar c := by
  by_cases h : 65 ≤ c.toNat ∧ c.toNat ≤ 90
  · obtain ⟨h1, h2⟩ := h
    have hc : c = Char.ofNat c.toNat := (Char.ofNat_toNat c).symm
    set n := c.toNat with hn
    rw [hc]
    interval_cases n <;> decide
  · unfold lowerChar
    rw [if_neg h, if_neg h]

theorem lowerStr_idem (s : String) : lowerStr (lowerStr s) = lowerStr s := by
  have hf : lowerChar ∘ lowerChar = lowerChar := funext lowerChar_idem
  unfold lowerStr
  rw [List.map_map, hf]

/-! ## Catalog-cache theorems (C1, C3, C4) -/

theorem fetchChannelEmotes_cache_hit (s : EmoteServiceState) (ch : String) (now : Nat)
    (c : List String) (o : FetchOutcome) (h : getCachedEmotes s ch now = some c) :
    fetchChannelEmotes s ch now o = (c, s, false) := by
  simp [fetchChannelEmotes, h]

theorem fetchChannelEmotes_cache_miss_invokes (s : EmoteServiceState) (ch : String)
    (now : Nat) (o : FetchOutcome) (h : getCachedEmotes s ch now = none) :
    (fetchChannelEmotes s ch now o).2.2 = true := by
  cases o <;> simp [fetchChannelEmotes, h]

theorem fetchChannelEmotes_error_leaves_state (s : EmoteServiceState) (ch : String)
    (now : Nat) (o : FetchOutcome) (ho : o.isTransientError = true)
    (h : getCachedEmotes s ch now = none) :
    fetchChannelEmotes s ch now o = ([], s, true) := by
  cases o <;> simp_all [FetchOutcome.isTransientError, fetchChannelEmotes]

theorem getCachedEmotes_after_success (s : EmoteServiceState) (ch : String)
    (t1 t2 : Nat) (es : Option (List SevenTVEmote))
    (hmiss : getCachedEmotes s ch t1 = none) (ht1 : 0 < t1)
    (httl : t2 - t1 < CACHE_DURATION) :
    getCachedEmotes (fetchChannelEmotes s ch t1 (.success es)).2.1 ch t2 =
      some (buildEmoteNames es) := by
  simp only [fetchChannelEmotes, hmiss]
  simp [getCachedEmotes, mapGet_mapSet_self, Nat.pos_iff_ne_zero.mp ht1, httl]

/-- C3: a cache entry younger than the 5-minute TTL is returned without
invoking the external fetch; in particular, after a first successful fetch
at a positive time `t1` from a cold cache, any second call at `t2` with
`t2 − t1 < TTL` returns the cached names with no further fetch, so the two
calls perform exactly one external fetch. -/
theorem C3_ttl_gate :
    (∀ (s : EmoteServiceState) (ch : String) (now : Nat) (c : List String)
        (o : FetchOutcome),
        getCachedEmotes s ch now = some c →
        fetchChannelEmotes s ch now o = (c, s, false)) ∧
    (∀ (s : EmoteServiceState) (ch : String) (t1 t2 : Nat)
        (es : Option (List SevenTVEmote)) (o2 : FetchOutcome),
        getCachedEmotes s ch t1 = none → 0 < t1 → t2 - t1 < CACHE_DURATION →
        (fetchChannelEmotes s ch t1 (.success es)).2.2 = true ∧
        fetchChannelEmotes (fetchChannelEmotes s ch t1 (.success es)).2.1 ch t2 o2 =
          ((fetchChannelEmotes s ch t1 (.success es)).1,
           (fetchChannelEmotes s ch t1 (.success es)).2.1, false)) := by
  constructor
  · exact fun s ch now c o h => fetchChannelEmotes_cache_hit s ch now c o h
  · intro s ch t1 t2 es o2 hmiss ht1 httl
    refine ⟨fetchChannelEmotes_cache_miss_invokes s ch t1 _ hmiss, ?_⟩
    have hc := getCachedEmotes_after_success s ch t1 t2 es hmiss ht1 httl
    have hr := fetchChannelEmotes_cache_hit _ ch t2 (buildEmoteNames es) o2 hc
    rw [hr]
    simp only [fetchChannelEmotes, hmiss]

/-- Witness for C3 at a concrete cold cache, fetch at `t1 = 1000`,
second call at `t2 = 2000`. -/
theorem C3_ttl_gate_witness :
    getCachedEmotes ⟨[], [], []⟩ "chan" 1000 = none ∧ 0 < 1000 ∧
    2000 - 1000 < CACHE_DURATION ∧
    ((fetchChannelEmotes ⟨[], [], []⟩ "chan" 1000
        (.success (some [⟨"Kappa", "k1", false⟩]))).2.2 = true ∧
     fetchChannelEmotes
        (fetchChannelEmotes ⟨[], [], []⟩ "chan" 1000
          (.success (some [⟨"Kappa", "k1", false⟩]))).2.1 "chan" 2000 .networkError =
       ((fetchChannelEmotes ⟨[], [], []⟩ "chan" 1000
          (.success (some [⟨"Kappa", "k1", false⟩]))).1,
        (fetchChannelEmotes ⟨[], [], []⟩ "chan" 1000
          (.success (some [⟨"Kappa", "k1", false⟩]))).2.1, false)) :=
  ⟨by decide, by decide, by decide,
   C3_ttl_gate.2 ⟨[], [], []⟩ "chan" 1000 2000 (some [⟨"Kappa", "k1", false⟩])
     .networkError (by decide) (by decide) (by decide)⟩

/-- C4: a transient fetch failure (non-404 status or a thrown request) on
a TTL-eligible call returns an empty catalog, leaves the whole cache state
(entries and timestamps) unchanged, and any later TTL-eligible call still
performs the external fetch. -/
theorem C4_transient_failure_not_cached :
    ∀ (s : EmoteServiceState) (ch : String) (now : Nat) (o : FetchOutcome),
      o.isTransientError = true →
      getCachedEmotes s ch now = none →
      fetchChannelEmotes s ch now o = ([], s, true) ∧
      (∀ (now2 : Nat) (o2 : FetchOutcome),
        getCachedEmotes s ch now2 = none →
        (fetchChannelEmotes (fetchChannelEmotes s ch now o).2.1 ch now2 o2).2.2 = true) := by
  intro s ch now o ho hmiss
  have h1 := fetchChannelEmotes_error_leaves_state s ch now o ho hmiss
  refine ⟨h1, ?_⟩
  intro now2 o2 hmiss2
  rw [h1]
  exact fetchChannelEmotes_cache_miss_invokes s ch now2 o2 hmiss2

/-- Witness for C4: an HTTP 500 on a cold cache, retried at `now2 = 1`. -/
theorem C4_transient_failure_not_cached_witness :
    (FetchOutcome.httpError 500).isTransientError = true ∧
    getCachedEmotes ⟨[], [], []⟩ "chan" 0 = none ∧
    (fetchChannelEmotes ⟨[], [], []⟩ "chan" 0 (.httpError 500) = ([], ⟨[], [], []⟩, true) ∧
     (∀ (now2 : Nat) (o2 : FetchOutcome),
        getCachedEmotes ⟨[], [], []⟩ "chan" now2 = none →
        (fetchChannelEmotes
          (fetchChannelEmotes ⟨[], [], []⟩ "chan" 0 (.httpError 500)).2.1
          "chan" now2 o2).2.2 = true)) :=
  ⟨by decide, by decide,
   C4_transient_failure_not_cached ⟨[], [], []⟩ "chan" 0 (.httpError 500)
     (by decide) (by decide)⟩

/-- C1 as frozen is false: after the registry's not-found outcome nothing
is cached (the 404 branch returns before the cache writes), so a second
call 1 second later — far inside the 5-minute TTL — performs the external
fetch again. -/
theorem C1_counterexample :
    (fetchChannelEmotes ⟨[], [], []⟩ "chan" 1000 .notFound).2.1 = ⟨[], [], []⟩ ∧
    (fetchChannelEmotes
      (fetchChannelEmotes ⟨[], [], []⟩ "chan" 1000 .notFound).2.1
      "chan" 2000 .notFound).2.2 = true := by decide

/-- C1 amended: the registry's not-found case returns an empty catalog
without caching anything — the service state is unchanged, so every later
TTL-eligible call invokes the external fetch again. Only ok responses
(including an empty or null emote set) are cached with the TTL. -/
theorem C1_amended_notfound_not_cached :
    ∀ (s : EmoteServiceState) (ch : String) (now : Nat),
      getCachedEmotes s ch now = none →
      fetchChannelEmotes s ch now .notFound = ([], s, true) ∧
      (∀ (now2 : Nat) (o2 : FetchOutcome),
        getCachedEmotes s ch now2 = none →
        (fetchChannelEmotes (fetchChannelEmotes s ch now .notFound).2.1 ch now2 o2).2.2 =
          true) := by
  intro s ch now hmiss
  have h1 : fetchChannelEmotes s ch now .notFound = ([], s, true) := by
    simp [fetchChannelEmotes, hmiss]
  refine ⟨h1, ?_⟩
  intro now2 o2 hmiss2
  rw [h1]
  exact fetchChannelEmotes_cache_miss_invokes s ch now2 o2 hmiss2

/-- Witness for the amended C1 on a cold cache. -/
theorem C1_amended_notfound_not_cached_witness :
    getCachedEmotes ⟨[], [], []⟩ "chan" 1000 = none ∧
    (fetchChannelEmotes ⟨[], [], []⟩ "chan" 1000 .notFound = ([], ⟨[], [], []⟩, true) ∧
     (∀ (now2 : Nat) (o2 : FetchOutcome),
        getCachedEmotes ⟨[], [], []⟩ "chan" now2 = none →
        (fetchChannelEmotes
          (fetchChannelEmotes ⟨[], [], []⟩ "chan" 1000 .notFound).2.1
          "chan" now2 o2).2.2 = true)) :=
  ⟨by decide, C1_amended_notfound_not_cached ⟨[], [], []⟩ "chan" 1000 (by decide)⟩

/-! ## Snapshot-metadata theorems (C2) -/

/-- C2 as frozen is false: the second `recordEmoteUsage` call supplies
metadata `id2/u2/true`, yet the stored counter still carries the creating
call's `id1/u1/false` — the snapshot is not overwritten on increment. -/
theorem C2_counterexample :
    ((getChannelStats
        (recordEmoteUsage
          (recordEmoteUsage initStats "c" "Kappa" (some ⟨"id1", "u1", false⟩) 5)
          "c" "Kappa" (some ⟨"id2", "u2", true⟩) 9) "c").bind
      (fun st => (mapGet "Kappa" st.emotes).map EmoteStats.emoteId)) =
        some (some "id1") ∧
    some "id1" ≠ some "id2" := by decide

/-- C2 amended: `recordEmoteUsage` writes the supplied metadata into the
counter only when it creates the counter (count 1, stamped `now`); a call
on an existing counter increments `count` and refreshes `lastUsed` but
leaves the stored `emoteId`/`imageUrl`/`animated` untouched, whatever
metadata the call supplies — first write wins, not last. -/
theorem C2_amended_metadata_first_write :
    ∀ (s : StatsState) (channelName emoteName : String) (metadata : Option UsageMeta)
      (now : Nat),
      (mapGet emoteName ((mapGet (lowerStr channelName) s.channelStats).getD
          (newChannelStats (lowerStr channelName))).emotes = none →
        (getChannelStats (recordEmoteUsage s channelName emoteName metadata now)
            channelName).bind (fun st => mapGet emoteName st.emotes) =
          some { emoteName := emoteName, count := 1, lastUsed := now,
                 channel := lowerStr channelName,
                 emoteId := metadata.map UsageMeta.emoteId,
                 imageUrl := metadata.map UsageMeta.imageUrl,
                 animated := metadata.map UsageMeta.animated }) ∧
      (∀ es : EmoteStats,
        mapGet emoteName ((mapGet (lowerStr channelName) s.channelStats).getD
            (newChannelStats (lowerStr channelName))).emotes = some es →
        (getChannelStats (recordEmoteUsage s channelName emoteName metadata now)
            channelName).bind (fun st => mapGet emoteName st.emotes) =
          some { es with count := es.count + 1, lastUsed := now }) := by
  intro s channelName emoteName metadata now
  constructor
  · intro h
    simp [recordEmoteUsage, getChannelStats, mapGet_mapSet_self, lowerStr_idem, h]
  · intro es h
    simp [recordEmoteUsage, getChannelStats, mapGet_mapSet_self, lowerStr_idem, h]

/-- Witness for the amended C2: the counter created with `id1` metadata
keeps it when incremented with `id2` metadata. -/
theorem C2_amended_metadata_first_write_witness :
    mapGet "Kappa" ((mapGet (lowerStr "c") (recordEmoteUsage initStats "c" "Kappa"
        (some ⟨"id1", "u1", false⟩) 5).channelStats).getD
        (newChannelStats (lowerStr "c"))).emotes =
      some ⟨"Kappa", 1, 5, "c", some "id1", some "u1", some false⟩ ∧
    (getChannelStats (recordEmoteUsage (recordEmoteUsage initStats "c" "Kappa"
        (some ⟨"id1", "u1", false⟩) 5) "c" "Kappa" (some ⟨"id2", "u2", true⟩) 9)
        "c").bind (fun st => mapGet "Kappa" st.emotes) =
      some { (⟨"Kappa", 1, 5, "c", some "id1", some "u1", some false⟩ : EmoteStats) with
             count := 2, lastUsed := 9 } :=
  ⟨by decide,
   (C2_amended_metadata_first_write
      (recordEmoteUsage initStats "c" "Kappa" (some ⟨"id1", "u1", false⟩) 5)
      "c" "Kappa" (some ⟨"id2", "u2", true⟩) 9).2
     ⟨"Kappa", 1, 5, "c", some "id1", some "u1", some false⟩ (by decide)⟩

/-! ## Match-engine theorems (C6) -/

theorem setAdd_mem (acc : List String) (x w : String) :
    w ∈ setAdd acc x ↔ w ∈ acc ∨ w = x := by
  unfold setAdd
  by_cases hx : acc.contains x
  · rw [if_pos hx]
    have hx' : x ∈ acc := List.elem_iff.mp hx
    constructor
    · exact Or.inl
    · rintro (h | rfl)
      · exact h
      · exact hx'
  · rw [if_neg hx]
    simp [List.mem_append]

theorem setAdd_nodup (acc : List String) (x : String) (h : acc.Nodup) :
    (setAdd acc x).Nodup := by
  unfold setAdd
  by_cases hx : acc.contains x
  · rwa [if_pos hx]
  · rw [if_neg hx]
    have hx' : x ∉ acc := fun hm => hx (List.elem_iff.mpr hm)
    simp [List.nodup_append, h, hx']

theorem setFold_mem (l acc : List String) (w : String) :
    w ∈ l.foldl setAdd acc ↔ w ∈ acc ∨ w ∈ l := by
  induction l generalizing acc with
  | nil => simp
  | cons x xs ih =>
    rw [List.foldl_cons, ih, setAdd_mem, List.mem_cons]
    constructor
    · rintro ((h | rfl) | h)
      · exact Or.inl h
      · exact Or.inr (Or.inl rfl)
      · exact Or.inr (Or.inr h)
    · rintro (h | rfl | h)
      · exact Or.inl (Or.inl h)
      · exact Or.inl (Or.inr rfl)
      · exact Or.inr h

theorem setFold_nodup (l acc : List String) (h : acc.Nodup) :
    (l.foldl setAdd acc).Nodup := by
  induction l generalizing acc with
  | nil => simpa
  | cons x xs ih =>
    rw [List.foldl_cons]
    exact ih _ (setAdd_nodup acc x h)

theorem findEmotesInMessage_eq_setFold (message : String) (emotes : List String) :
    findEmotesInMessage message emotes =
      setFromList ((splitWS message.data).filter (fun w => emotes.contains w)) := by
  unfold findEmotesInMessage setFromList
  generalize splitWS message.data = ws
  suffices h : ∀ acc : List String,
      ws.foldl (fun found w => if emotes.contains w then setAdd found w else found) acc =
        (ws.filter fun w => emotes.contains w).foldl setAdd acc from h []
  induction ws with
  | nil => intro acc; rfl
  | cons x xs ih =>
    intro acc
    rw [List.foldl_cons]
    by_cases he : emotes.contains x
    · rw [if_pos he, List.filter_cons_of_pos he, List.foldl_cons]
      exact ih (setAdd acc x)
    · rw [if_neg he, List.filter_cons_of_neg (by simpa using he)]
      exact ih acc

/-- C6: `findEmotesInMessage` equals: split the text on whitespace runs,
keep exactly the tokens that are (case-sensitively) members of the emote
set, dropping repeats after the first occurrence (so the result follows
first occurrence in the text); the result has no duplicates, and a word
belongs to it iff it is literally one of the whitespace-delimited tokens
and an emote name — so no substring matching or punctuation stripping can
occur, as the concrete `"peepoArrive,"` token shows. -/
theorem C6_findMatches_exact_tokens :
    (∀ (message : String) (emotes : List String),
      findEmotesInMessage message emotes =
        setFromList ((splitWS message.data).filter (fun w => emotes.contains w)) ∧
      (findEmotesInMessage message emotes).Nodup ∧
      (∀ w, w ∈ findEmotesInMessage message emotes ↔
        w ∈ splitWS message.data ∧ w ∈ emotes)) ∧
    findEmotesInMessage "hello peepoArrive, world" ["peepoArrive", "world"] = ["world"] := by
  refine ⟨fun message emotes => ⟨findEmotesInMessage_eq_setFold message emotes, ?_, ?_⟩,
    by decide⟩
  · rw [findEmotesInMessage_eq_setFold]
    exact setFold_nodup _ _ List.nodup_nil
  · intro w
    rw [findEmotesInMessage_eq_setFold]
    unfold setFromList
    rw [setFold_mem]
    simp [List.mem_filter, List.elem_iff]

/-! ## Autosave theorems (C7) -/

/-- C7: one interval tick calls `saveStats` (the underlying write) iff the
dirty flag is set; when dirty, a successful save clears the flag and a
failed save leaves it set; hence after a dirty tick with a successful
write the next tick performs no write, while after a failed write the
next tick retries. -/
theorem C7_autosave_dirty_gating :
    ∀ (s : StatsState) (ok : Bool),
      ((autosaveTick s ok).2 = true ↔ s.isDirty = true) ∧
      (s.isDirty = true → (autosaveTick s ok).1.isDirty = !ok) ∧
      (s.isDirty = true →
        autosaveTick (autosaveTick s true).1 ok = ((autosaveTick s true).1, false)) ∧
      (s.isDirty = true →
        (autosaveTick (autosaveTick s false).1 ok).2 = true) := by
  intro s ok
  obtain ⟨cs, d⟩ := s
  cases d <;> cases ok <;> simp [autosaveTick, saveStats]

/-- Witness for C7: a store dirtied by one `recordMessage`; a successful
first tick makes the second tick a no-op, a failed first tick makes the
second tick write again. -/
theorem C7_autosave_dirty_gating_witness :
    (recordMessage initStats "c").isDirty = true ∧
    ((autosaveTick (recordMessage initStats "c") true).2 = true ↔
      (recordMessage initStats "c").isDirty = true) ∧
    autosaveTick (autosaveTick (recordMessage initStats "c") true).1 true =
      ((autosaveTick (recordMessage initStats "c") true).1, false) ∧
    (autosaveTick (autosaveTick (recordMessage initStats "c") false).1 true).2 = true :=
  ⟨by decide,
   (C7_autosave_dirty_gating (recordMessage initStats "c") true).1,
   (C7_autosave_dirty_gating (recordMessage initStats "c") true).2.2.1 (by decide),
   (C7_autosave_dirty_gating (recordMessage initStats "c") true).2.2.2 (by decide)⟩

/-! ## Top-emotes sorting theorems (C9) -/

theorem insertByCountDesc_perm (x : EmoteStats) (l : List EmoteStats) :
    (insertByCountDesc x l).Perm (x :: l) := by
  induction l with
  | nil => exact List.Perm.refl _
  | cons y ys ih =>
    unfold insertByCountDesc
    by_cases h : y.count < x.count
    · rw [if_pos h]
    · rw [if_neg h]
      exact (ih.cons y).trans (List.Perm.swap x y ys)

theorem insertByCountDesc_sorted (x : EmoteStats) (l : List EmoteStats)
    (h : CountSortedDesc l) : CountSortedDesc (insertByCountDesc x l) := by
  induction l with
  | nil => simp [insertByCountDesc, CountSortedDesc]
  | cons y ys ih =>
    rw [CountSortedDesc, List.pairwise_cons] at h
    obtain ⟨hy, hys⟩ := h
    unfold insertByCountDesc
    by_cases hlt : y.count < x.count
    · rw [if_pos hlt]
      rw [CountSortedDesc, List.pairwise_cons]
      refine ⟨?_, ?_⟩
      · intro b hb
        rcases List.mem_cons.mp hb with rfl | hb
        · exact Nat.le_of_lt hlt
        · exact Nat.le_trans (hy b hb) (Nat.le_of_lt hlt)
      · rw [List.pairwise_cons]
        exact ⟨hy, hys⟩
    · rw [if_neg hlt]
      rw [CountSortedDesc, List.pairwise_cons]
      refine ⟨?_, ih hys⟩
      intro b hb
      have hb' : b ∈ x :: ys := (insertByCountDesc_perm x ys).mem_iff.mp hb
      rcases List.mem_cons.mp hb' with rfl | hb'
      · exact Nat.le_of_not_lt hlt
      · exact hy b hb'

theorem insertByCountDesc_filter (x : EmoteStats) (l : List EmoteStats)
    (h : CountSortedDesc l) (n : Nat) :
    (insertByCountDesc x l).filter (fun e => e.count == n) =
      if x.count = n then l.filter (fun e => e.count == n) ++ [x]
      else l.filter (fun e => e.count == n) := by
  induction l with
  | nil =>
    by_cases hx : x.count = n <;> simp [insertByCountDesc, hx]
  | cons y ys ih =>
    rw [CountSortedDesc, List.pairwise_cons] at h
    obtain ⟨hy, hys⟩ := h
    unfold insertByCountDesc
    by_cases hlt : y.count < x.count
    · rw [if_pos hlt]
      by_cases hx : x.count = n
      · subst hx
        have hnil : (y :: ys).filter (fun e => e.count == x.count) = [] := by
          rw [List.filter_eq_nil_iff]
          intro a ha
          rcases List.mem_cons.mp ha with rfl | ha
          · simp [Nat.ne_of_lt hlt]
          · simp [Nat.ne_of_lt (Nat.lt_of_le_of_lt (hy a ha) hlt)]
        rw [if_pos rfl, hnil, List.nil_append,
          List.filter_cons_of_pos (by simp), hnil]
      · rw [if_neg hx]
        simp only [List.filter_cons]
        have : ((x.count == n) = false) := by simp [hx]
        simp [this]
    · rw [if_neg hlt]
      simp only [List.filter_cons]
      rw [ih hys]
      by_cases hx : x.count = n
      · rw [if_pos hx, if_pos hx]
        by_cases hyn : y.count = n
        · simp [hyn]
        · simp [hyn]
      · rw [if_neg hx, if_neg hx]

theorem sortFold_perm (l acc : List EmoteStats) :
    (l.foldl (fun acc x => insertByCountDesc x acc) acc).Perm (acc ++ l) := by
  induction l generalizing acc with
  | nil => simp
  | cons x xs ih =>
    rw [List.foldl_cons]
    refine (ih (insertByCountDesc x acc)).trans ?_
    refine (List.Perm.append_right xs (insertByCountDesc_perm x acc)).trans ?_
    exact List.perm_middle.symm

theorem sortFold_sorted (l acc : List EmoteStats) (h : CountSortedDesc acc) :
    CountSortedDesc (l.foldl (fun acc x => insertByCountDesc x acc) acc) := by
  induction l generalizing acc with
  | nil => simpa
  | cons x xs ih =>
    rw [List.foldl_cons]
    exact ih _ (insertByCountDesc_sorted x acc h)

theorem sortFold_filter (l acc : List EmoteStats) (h : CountSortedDesc acc) (n : Nat) :
    (l.foldl (fun acc x => insertByCountDesc x acc) acc).filter (fun e => e.count == n) =
      acc.filter (fun e => e.count == n) ++ l.filter (fun e => e.count == n) := by
  induction l generalizing acc with
  | nil => simp
  | cons x xs ih =>
    rw [List.foldl_cons, ih _ (insertByCountDesc_sorted x acc h),
      insertByCountDesc_filter x acc h n]
    by_cases hx : x.count = n
    · rw [if_pos hx, List.filter_cons_of_pos (by simp [hx]), List.append_assoc]
      rfl
    · rw [if_neg hx, List.filter_cons_of_neg (by simp [hx])]

/-- C9: `getTopEmotes` is the count-descending stable sort of all counters
(all channels in map order, each channel's counters in map order)
truncated to `limit`: the sorted list is a permutation of the collected
counters, is ordered by count descending, and preserves the original
relative order of counters with equal count (the stability that makes the
result deterministic); on the spec's concrete `{A:5, B:5, C:3}` store,
`getTopEmotes 2` returns `A` then `B`. -/
theorem C9_topGlobal_stable_sort :
    (∀ (s : StatsState) (limit : Nat),
      getTopEmotes s limit = (sortByCountDesc (allEmotesList s)).take limit ∧
      (sortByCountDesc (allEmotesList s)).Perm (allEmotesList s) ∧
      CountSortedDesc (sortByCountDesc (allEmotesList s)) ∧
      (∀ n : Nat,
        (sortByCountDesc (allEmotesList s)).filter (fun e => e.count == n) =
          (allEmotesList s).filter (fun e => e.count == n))) ∧
    getTopEmotes
      { channelStats := [("c", ⟨"c", 0, 13,
          [("A", ⟨"A", 5, 0, "c", none, none, none⟩),
           ("B", ⟨"B", 5, 0, "c", none, none, none⟩),
           ("C", ⟨"C", 3, 0, "c", none, none, none⟩)]⟩)],
        isDirty := false } 2 =
      [⟨"A", 5, 0, "c", none, none, none⟩, ⟨"B", 5, 0, "c", none, none, none⟩] := by
  refine ⟨fun s limit => ⟨rfl, ?_, ?_, ?_⟩, by decide⟩
  · unfold sortByCountDesc
    simpa using sortFold_perm (allEmotesList s) []
  · exact sortFold_sorted _ _ (by simp [CountSortedDesc])
  · intro n
    unfold sortByCountDesc
    simpa using sortFold_filter (allEmotesList s) [] (by simp [CountSortedDesc]) n

/-! ## Persistence round trip (C5) -/

theorem emotesFold_eq (em : List (String × EmoteStats)) :
    ∀ acc : List (String × EmoteStats),
      (∀ q ∈ em, q.2.emoteName = q.1) →
      (mapKeys em).Nodup →
      (∀ k ∈ mapKeys em, k ∉ mapKeys acc) →
      (em.map Prod.snd).foldl (fun em e => mapSet e.emoteName e em) acc = acc ++ em := by
  induction em with
  | nil => intro acc _ _ _; simp
  | cons q rest ih =>
    intro acc hk hnd hdis
    obtain ⟨k, v⟩ := q
    have hkv : v.emoteName = k := hk (k, v) (List.mem_cons_self _ _)
    simp only [List.map_cons, List.foldl_cons, hkv]
    have hknotin : k ∉ mapKeys acc := hdis k (by simp [mapKeys])
    rw [mapSet_eq_append k v acc ((mapGet_eq_none_iff k acc).mpr hknotin)]
    have hnd' : (mapKeys rest).Nodup := by
      simpa [mapKeys] using hnd.of_cons
    have hknew : k ∉ mapKeys rest := by
      simp only [mapKeys, List.map_cons] at hnd
      exact (List.nodup_cons.mp hnd).1
    rw [ih (acc ++ [(k, v)]) (fun q hq => hk q (List.mem_cons_of_mem _ hq)) hnd' ?_]
    · simp
    · intro k' hk'
      intro hmem'
      simp only [mapKeys, List.map_append, List.mem_append, List.map_cons, List.map_nil,
        List.mem_singleton] at hmem'
      rcases hmem' with h | h
      · exact hdis k' (by simp only [mapKeys, List.map_cons, List.mem_cons]; exact Or.inr hk') h
      · exact hknew (h ▸ hk')

theorem channelsFold_eq (m : List (String × ChannelStats)) :
    ∀ acc : List (String × ChannelStats),
      WFChannelMap m →
      (∀ k ∈ mapKeys m, k ∉ mapKeys acc) →
      ((m.map fun p =>
          ({ channelName := p.2.channelName, totalMessages := p.2.totalMessages,
             totalEmotesUsed := p.2.totalEmotesUsed,
             emotes := p.2.emotes.map Prod.snd } : SerializableChannelStats)).foldl
        (fun acc ch =>
          mapSet ch.channelName
            { channelName := ch.channelName, totalMessages := ch.totalMessages,
              totalEmotesUsed := ch.totalEmotesUsed,
              emotes := ch.emotes.foldl (fun em e => mapSet e.emoteName e em) [] } acc)
        acc) = acc ++ m := by
  induction m with
  | nil => intro acc _ _; simp
  | cons p rest ih =>
    intro acc hwf hdis
    obtain ⟨hnd, hmem⟩ := hwf
    obtain ⟨k, v⟩ := p
    obtain ⟨hname, hwfe⟩ := hmem (k, v) (List.mem_cons_self _ _)
    simp only [List.map_cons, List.foldl_cons]
    have hemotes :
        (v.emotes.map Prod.snd).foldl (fun em e => mapSet e.emoteName e em) [] = v.emotes := by
      simpa using emotesFold_eq v.emotes [] hwfe.2 hwfe.1 (by simp [mapKeys])
    have hbucket :
        ({ channelName := v.channelName, totalMessages := v.totalMessages,
           totalEmotesUsed := v.totalEmotesUsed,
           emotes := (v.emotes.map Prod.snd).foldl (fun em e => mapSet e.emoteName e em) [] }
          : ChannelStats) = v := by
      rw [hemotes]
    rw [hbucket, hname]
    have hknotin : k ∉ mapKeys acc := hdis k (by simp [mapKeys])
    rw [mapSet_eq_append k v acc ((mapGet_eq_none_iff k acc).mpr hknotin)]
    have hnd' : (mapKeys rest).Nodup := by
      simpa [mapKeys] using hnd.of_cons
    have hknew : k ∉ mapKeys rest := by
      simp only [mapKeys, List.map_cons] at hnd
      exact (List.nodup_cons.mp hnd).1
    rw [ih (acc ++ [(k, v)])
      ⟨hnd', fun q hq => hmem q (List.mem_cons_of_mem _ hq)⟩ ?_]
    · simp
    · intro k' hk'
      intro hmem'
      simp only [mapKeys, List.map_append, List.mem_append, List.map_cons, List.map_nil,
        List.mem_singleton] at hmem'
      rcases hmem' with h | h
      · exact hdis k' (by simp only [mapKeys, List.map_cons, List.mem_cons]; exact Or.inr hk') h
      · exact hknew (h ▸ hk')

/-- C5: on any well-formed store (duplicate-free keys whose buckets and
counters carry their own key — the shape every store built by the public
mutations has), `saveStats`'s document read back by `loadStats` rebuilds
the exact channel map: every channel's `totalMessages` and
`totalEmotesUsed` and every counter (hence its count) are identical, and
the loaded store starts clean. -/
theorem C5_save_load_round_trip :
    ∀ s : StatsState, WFChannelMap s.channelStats →
      loadStatsFromData (serializeStats s) =
        { channelStats := s.channelStats, isDirty := false } ∧
      (∀ c : String,
        (mapGet c (loadStatsFromData (serializeStats s)).channelStats).map
            (fun st => (st.totalMessages, st.totalEmotesUsed)) =
          (mapGet c s.channelStats).map (fun st => (st.totalMessages, st.totalEmotesUsed))) ∧
      (∀ c e : String,
        ((mapGet c (loadStatsFromData (serializeStats s)).channelStats).bind
            (fun st => mapGet e st.emotes)).map EmoteStats.count =
          ((mapGet c s.channelStats).bind (fun st => mapGet e st.emotes)).map
            EmoteStats.count) := by
  intro s hwf
  have hmain : loadStatsFromData (serializeStats s) =
      { channelStats := s.channelStats, isDirty := false } := by
    unfold loadStatsFromData serializeStats
    have h := channelsFold_eq s.channelStats [] hwf (by simp [mapKeys])
    simp only [List.nil_append] at h
    rw [h]
  refine ⟨hmain, ?_, ?_⟩
  · intro c
    rw [hmain]
  · intro c e
    rw [hmain]

/-- Witness for C5 at a two-channel, one-counter store. -/
theorem C5_save_load_round_trip_witness :
    WFChannelMap
      [("a", ⟨"a", 3, 2, [("X", ⟨"X", 2, 7, "a", some "x1", some "u", some true⟩)]⟩),
       ("b", ⟨"b", 1, 0, []⟩)] ∧
    loadStatsFromData (serializeStats
        ⟨[("a", ⟨"a", 3, 2, [("X", ⟨"X", 2, 7, "a", some "x1", some "u", some true⟩)]⟩),
          ("b", ⟨"b", 1, 0, []⟩)], true⟩) =
      { channelStats :=
          [("a", ⟨"a", 3, 2, [("X", ⟨"X", 2, 7, "a", some "x1", some "u", some true⟩)]⟩),
           ("b", ⟨"b", 1, 0, []⟩)],
        isDirty := false } :=
  ⟨by decide,
   (C5_save_load_round_trip
      ⟨[("a", ⟨"a", 3, 2, [("X", ⟨"X", 2, 7, "a", some "x1", some "u", some true⟩)]⟩),
        ("b", ⟨"b", 1, 0, []⟩)], true⟩ (by decide)).1⟩

/-! ## Store invariants (C8, C10) -/

theorem mapGet_mem {β : Type} (k : String) (v : β) (m : List (String × β))
    (h : mapGet k m = some v) : (k, v) ∈ m := by
  induction m with
  | nil => simp [mapGet] at h
  | cons p rest ih =>
    obtain ⟨k₀, v₀⟩ := p
    by_cases hk : k₀ = k
    · subst hk
      have h' : some v₀ = some v := by
        rw [← h]
        simp [mapGet]
      injection h' with h''
      subst h''
      exact List.mem_cons_self _ _
    · simp only [mapGet, if_neg hk] at h
      exact List.mem_cons_of_mem _ (ih h)

theorem mapSet_mem {β : Type} (k : String) (v : β) (m : List (String × β)) :
    ∀ q ∈ mapSet k v m, q = (k, v) ∨ q ∈ m := by
  induction m with
  | nil => simp [mapSet]
  | cons p rest ih =>
    obtain ⟨k₀, v₀⟩ := p
    intro q hq
    by_cases hk : k₀ = k
    · simp only [mapSet, if_pos hk] at hq
      rcases List.mem_cons.mp hq with rfl | hq'
      · exact Or.inl rfl
      · exact Or.inr (List.mem_cons_of_mem _ hq')
    · simp only [mapSet, if_neg hk] at hq
      rcases List.mem_cons.mp hq with rfl | hq'
      · exact Or.inr (List.mem_cons_self _ _)
      · rcases ih q hq' with h | h
        · exact Or.inl h
        · exact Or.inr (List.mem_cons_of_mem _ h)

theorem mapKeys_mapSet_nodup {β : Type} (k : String) (v : β) (m : List (String × β))
    (h : (mapKeys m).Nodup) : (mapKeys (mapSet k v m)).Nodup := by
  by_cases hg : mapGet k m = none
  · rw [mapSet_eq_append k v m hg]
    have hknotin : k ∉ mapKeys m := (mapGet_eq_none_iff k m).mp hg
    simp only [mapKeys, List.map_append, List.map_cons, List.map_nil]
    rw [List.nodup_append]
    refine ⟨h, List.nodup_singleton k, ?_⟩
    intro a ha hb
    rw [List.mem_singleton] at hb
    subst hb
    exact hknotin ha
  · rw [mapKeys_mapSet_mem k v m hg]
    exact h

theorem sumCounts_mapSet_present (k : String) (v es : EmoteStats)
    (em : List (String × EmoteStats)) (h : mapGet k em = some es) :
    sumCounts (mapSet k v em) + es.count = sumCounts em + v.count := by
  induction em with
  | nil => simp [mapGet] at h
  | cons p rest ih =>
    obtain ⟨k₀, v₀⟩ := p
    by_cases hk : k₀ = k
    · simp only [mapGet, if_pos hk, Option.some.injEq] at h
      subst h
      simp only [mapSet, if_pos hk, sumCounts, List.map_cons, List.sum_cons]
      omega
    · simp only [mapGet, if_neg hk] at h
      have := ih h
      simp only [mapSet, if_neg hk, sumCounts, List.map_cons, List.sum_cons]
      simp only [sumCounts] at this
      omega

theorem sumCounts_mapSet_absent (k : String) (v : EmoteStats)
    (em : List (String × EmoteStats)) (h : mapGet k em = none) :
    sumCounts (mapSet k v em) = sumCounts em + v.count := by
  rw [mapSet_eq_append k v em h]
  simp [sumCounts]

theorem storeInv_initStats : StoreInv initStats := by
  refine ⟨⟨?_, ?_⟩, ?_⟩ <;> simp [initStats, mapKeys]

theorem storeInv_recordMessage (s : StatsState) (c : String) (h : StoreInv s) :
    StoreInv (recordMessage s c) := by
  obtain ⟨⟨hnd, hmem⟩, hext⟩ := h
  cases hg : mapGet (lowerStr c) s.channelStats with
  | none =>
    simp only [recordMessage, hg, Option.getD_none]
    refine ⟨⟨mapKeys_mapSet_nodup _ _ _ hnd, ?_⟩, ?_⟩
    · intro p hp
      rcases mapSet_mem _ _ _ p hp with rfl | hp'
      · exact ⟨rfl, by simp [mapKeys, newChannelStats], by simp [newChannelStats]⟩
      · exact hmem p hp'
    · intro p hp
      rcases mapSet_mem _ _ _ p hp with rfl | hp'
      · exact ⟨lowerStr_idem c, by simp [newChannelStats, sumCounts]⟩
      · exact hext p hp'
  | some b =>
    have hb : (lowerStr c, b) ∈ s.channelStats := mapGet_mem _ _ _ hg
    obtain ⟨hbname, hbwf⟩ := hmem _ hb
    obtain ⟨hblow, hbsum⟩ := hext _ hb
    simp only [recordMessage, hg, Option.getD_some]
    refine ⟨⟨mapKeys_mapSet_nodup _ _ _ hnd, ?_⟩, ?_⟩
    · intro p hp
      rcases mapSet_mem _ _ _ p hp with rfl | hp'
      · exact ⟨hbname, hbwf⟩
      · exact hmem p hp'
    · intro p hp
      rcases mapSet_mem _ _ _ p hp with rfl | hp'
      · exact ⟨hblow, hbsum⟩
      · exact hext p hp'

theorem storeInv_recordEmoteUsage (s : StatsState) (c e : String)
    (meta : Option UsageMeta) (now : Nat) (h : StoreInv s) :
    StoreInv (recordEmoteUsage s c e meta now) := by
  obtain ⟨⟨hnd, hmem⟩, hext⟩ := h
  cases hg : mapGet (lowerStr c) s.channelStats with
  | none =>
    simp only [recordEmoteUsage, hg, Option.getD_none, newChannelStats, mapGet_nil]
    refine ⟨⟨mapKeys_mapSet_nodup _ _ _ hnd, ?_⟩, ?_⟩
    · intro p hp
      rcases mapSet_mem _ _ _ p hp with rfl | hp'
      · refine ⟨rfl, ?_, ?_⟩
        · simp [mapKeys, mapSet]
        · intro q hq
          simp only [mapSet] at hq
          rcases List.mem_singleton.mp hq with rfl
          rfl
      · exact hmem p hp'
    · intro p hp
      rcases mapSet_mem _ _ _ p hp with rfl | hp'
      · refine ⟨lowerStr_idem c, ?_⟩
        simp [mapSet, sumCounts]
      · exact hext p hp'
  | some b =>
    have hb : (lowerStr c, b) ∈ s.channelStats := mapGet_mem _ _ _ hg
    obtain ⟨hbname, hbnd, hbnames⟩ := hmem _ hb
    obtain ⟨hblow, hbsum⟩ := hext _ hb
    cases hge : mapGet e b.emotes with
    | none =>
      simp only [recordEmoteUsage, hg, Option.getD_some, hge, Option.getD_none]
      refine ⟨⟨mapKeys_mapSet_nodup _ _ _ hnd, ?_⟩, ?_⟩
      · intro p hp
        rcases mapSet_mem _ _ _ p hp with rfl | hp'
        · refine ⟨hbname, mapKeys_mapSet_nodup _ _ _ hbnd, ?_⟩
          intro q hq
          rcases mapSet_mem _ _ _ q hq with rfl | hq'
          · rfl
          · exact hbnames q hq'
        · exact hmem p hp'
      · intro p hp
        rcases mapSet_mem _ _ _ p hp with rfl | hp'
        · refine ⟨hblow, ?_⟩
          have hsum := sumCounts_mapSet_absent e
            { emoteName := e, count := 0 + 1, lastUsed := now, channel := lowerStr c,
              emoteId := meta.map UsageMeta.emoteId,
              imageUrl := meta.map UsageMeta.imageUrl,
              animated := meta.map UsageMeta.animated } b.emotes hge
          have hbsum' : b.totalEmotesUsed = sumCounts b.emotes := hbsum
          simp only [hsum, hbsum']
        · exact hext p hp'
    | some es =>
      simp only [recordEmoteUsage, hg, Option.getD_some, hge]
      have hename : es.emoteName = e := hbnames (e, es) (mapGet_mem _ _ _ hge)
      refine ⟨⟨mapKeys_mapSet_nodup _ _ _ hnd, ?_⟩, ?_⟩
      · intro p hp
        rcases mapSet_mem _ _ _ p hp with rfl | hp'
        · refine ⟨hbname, mapKeys_mapSet_nodup _ _ _ hbnd, ?_⟩
          intro q hq
          rcases mapSet_mem _ _ _ q hq with rfl | hq'
          · exact hename
          · exact hbnames q hq'
        · exact hmem p hp'
      · intro p hp
        rcases mapSet_mem _ _ _ p hp with rfl | hp'
        · refine ⟨hblow, ?_⟩
          have hsum := sumCounts_mapSet_present e
            { es with count := es.count + 1, lastUsed := now } es b.emotes hge
          have hbsum' : b.totalEmotesUsed = sumCounts b.emotes := hbsum
          have hsum' :
              sumCounts (mapSet e { es with count := es.count + 1, lastUsed := now }
                b.emotes) + es.count = sumCounts b.emotes + (es.count + 1) := hsum
          show b.totalEmotesUsed + 1 =
            sumCounts (mapSet e { es with count := es.count + 1, lastUsed := now } b.emotes)
          omega
        · exact hext p hp'

theorem storeInv_clearStats (s : StatsState) (_h : StoreInv s) :
    StoreInv (clearStats s) := by
  refine ⟨⟨?_, ?_⟩, ?_⟩ <;> simp [clearStats, mapKeys]

theorem storeInv_applyOp (s : StatsState) (op : StatsOp) (h : StoreInv s) :
    StoreInv (applyOp s op) := by
  cases op with
  | recordMessage c => exact storeInv_recordMessage s c h
  | recordEmoteUsage c e meta now => exact storeInv_recordEmoteUsage s c e meta now h
  | clearStats => exact storeInv_clearStats s h

theorem storeInv_runOps (ops : List StatsOp) : StoreInv (runOps ops) := by
  suffices h : ∀ s : StatsState, StoreInv s → StoreInv (ops.foldl applyOp s) from
    h initStats storeInv_initStats
  induction ops with
  | nil => intro s hs; exact hs
  | cons op rest ih =>
    intro s hs
    exact ih _ (storeInv_applyOp s op hs)

/-- C8: in every store reachable from the empty store by the public
mutations, each channel bucket's `totalEmotesUsed` equals the sum of its
per-emote counter counts; and `totalMessages` is independent of emote
activity — one `recordMessage` yields a bucket with `totalMessages = 1`
and no counters at all. -/
theorem C8_totalEmotesUsed_consistency :
    (∀ (ops : List StatsOp) (p : String × ChannelStats),
      p ∈ (runOps ops).channelStats →
      p.2.totalEmotesUsed = sumCounts p.2.emotes) ∧
    getChannelStats (runOps [.recordMessage "c"]) "c" =
      some { channelName := "c", totalMessages := 1, totalEmotesUsed := 0, emotes := [] } := by
  refine ⟨?_, by decide⟩
  intro ops p hp
  exact ((storeInv_runOps ops).2 p hp).2

/-- Witness for C8: two usages of `X` (one via the upper-cased channel
name) give `totalEmotesUsed = 2 = sum of counts`. -/
theorem C8_totalEmotesUsed_consistency_witness :
    (("a", ⟨"a", 0, 2, [("X", ⟨"X", 2, 9, "a", none, none, none⟩)]⟩) :
        String × ChannelStats) ∈
      (runOps [.recordEmoteUsage "A" "X" none 7,
               .recordEmoteUsage "a" "X" none 9]).channelStats ∧
    (⟨"a", 0, 2, [("X", ⟨"X", 2, 9, "a", none, none, none⟩)]⟩ :
        ChannelStats).totalEmotesUsed =
      sumCounts [("X", ⟨"X", 2, 9, "a", none, none, none⟩)] :=
  ⟨by decide,
   C8_totalEmotesUsed_consistency.1
     [.recordEmoteUsage "A" "X" none 7, .recordEmoteUsage "a" "X" none 9]
     ("a", ⟨"a", 0, 2, [("X", ⟨"X", 2, 9, "a", none, none, none⟩)]⟩) (by decide)⟩

/-- C10: every per-channel operation of the usage store and the catalog
cache keys its state by the lower-cased channel name: each call equals the
same call on the lower-cased name (so names differing only in case share
one bucket), and in every reachable store each stored channel key is a
lower-case fixed point carried in the bucket's `channelName` field. -/
theorem C10_lowercase_channel_keying :
    (∀ (s : StatsState) (c : String), recordMessage s c = recordMessage s (lowerStr c)) ∧
    (∀ (s : StatsState) (c e : String) (m : Option UsageMeta) (now : Nat),
      recordEmoteUsage s c e m now = recordEmoteUsage s (lowerStr c) e m now) ∧
    (∀ (s : StatsState) (c : String), getChannelStats s c = getChannelStats s (lowerStr c)) ∧
    (∀ (s : EmoteServiceState) (c : String) (now : Nat),
      getCachedEmotes s c now = getCachedEmotes s (lowerStr c) now) ∧
    (∀ (s : EmoteServiceState) (c e : String),
      getEmoteMetadata s c e = getEmoteMetadata s (lowerStr c) e) ∧
    (∀ (s : EmoteServiceState) (c : String) (now : Nat) (o : FetchOutcome),
      fetchChannelEmotes s c now o = fetchChannelEmotes s (lowerStr c) now o) ∧
    (∀ (ops : List StatsOp) (p : String × ChannelStats),
      p ∈ (runOps ops).channelStats → lowerStr p.1 = p.1 ∧ p.2.channelName = p.1) := by
  refine ⟨?_, ?_, ?_, ?_, ?_, ?_, ?_⟩
  · intro s c
    simp [recordMessage, lowerStr_idem]
  · intro s c e m now
    simp [recordEmoteUsage, lowerStr_idem]
  · intro s c
    simp [getChannelStats, lowerStr_idem]
  · intro s c now
    simp [getCachedEmotes, lowerStr_idem]
  · intro s c e
    simp [getEmoteMetadata, lowerStr_idem]
  · intro s c now o
    simp [fetchChannelEmotes, getCachedEmotes, lowerStr_idem]
  · intro ops p hp
    exact ⟨((storeInv_runOps ops).2 p hp).1, ((storeInv_runOps ops).1.2 p hp).1⟩

/-- Witness for C10: `recordMessage "AbC"` lands in (and stamps) the
`"abc"` bucket. -/
theorem C10_lowercase_channel_keying_witness :
    (("abc", ⟨"abc", 1, 0, []⟩) : String × ChannelStats) ∈
      (runOps [.recordMessage "AbC"]).channelStats ∧
    (lowerStr "abc" = "abc" ∧ (⟨"abc", 1, 0, []⟩ : ChannelStats).channelName = "abc") :=
  ⟨by decide,
   C10_lowercase_channel_keying.2.2.2.2.2.2 [.recordMessage "AbC"]
     ("abc", ⟨"abc", 1, 0, []⟩) (by decide)⟩
